import Mathlib

/-!
Verification of the VLESS-over-WebSocket tunnel client of the CFspider
repository, embedded shallowly from `src/test_vless.py`.

Byte strings are modelled as `List Nat` (each entry one byte); the Python
bitwise operators are translated as `&&& (2^k - 1) = % 2^k`, `|||` as
`Nat.lor` and `^` as `Nat.xor`.  `struct.pack` / `struct.unpack` with the
`>H` and `>Q` formats become explicit big-endian byte lists.

The embedded pieces are:
* `send_ws_frame`       — the outbound frame encoder (lines 58-74);
* `parseHeader` / `parseFrames` — the inbound frame parse loop
  (lines 96-124), including the first-frame VLESS response-header strip;
* `handshakeLoop`       — the WebSocket handshake read loop (lines 33-35),
  with the successive `recv` results abstracted as a list of chunks;
* `vlessHeader` / `header` / `payload` — the VLESS request-header
  construction (lines 39-54).

The Python `while offset < len(all_data)` loop is embedded with an explicit
fuel argument (`parseFramesAux`); `parseFramesAux_irrel` shows any fuel of
at least `data.length - offset` iterations yields the same result, so
`parseFrames` (fuel `data.length`) is the exact behaviour of the loop.
-/

namespace CFspider

/-- Big-endian read of a byte list, as `struct.unpack` with formats
`>H` (2 bytes) and `>Q` (8 bytes) computes it. -/
def beUnpack (l : List Nat) : Nat :=
  l.foldl (fun a b => a * 256 + b) 0

/-- Big-endian 2-byte serialization, `struct.pack` with format `>H`. -/
def pack16 (n : Nat) : List Nat :=
  [n / 256 % 256, n % 256]

/-- Big-endian 8-byte serialization, `struct.pack` with format `>Q`. -/
def pack64 (n : Nat) : List Nat :=
  [n / 2 ^ 56 % 256, n / 2 ^ 48 % 256, n / 2 ^ 40 % 256, n / 2 ^ 32 % 256,
   n / 2 ^ 24 % 256, n / 2 ^ 16 % 256, n / 2 ^ 8 % 256, n % 256]

/-- Line 71 of `test_vless.py`:
`bytes([data[i] ^ mask[i % 4] for i in range(len(data))])`. -/
def maskBytes (data mask : List Nat) : List Nat :=
  (List.range data.length).map (fun i => data.getD i 0 ^^^ mask.getD (i % 4) 0)

/-- Lines 58-72 of `test_vless.py`: the outbound WebSocket frame encoder.
First byte `0x82` (FIN=1, binary opcode); second byte mask bit `0x80`
ORed with the length class; then the 4-byte mask key and the masked
payload.  The random `os.urandom(4)` mask is passed in as `mask`. -/
def send_ws_frame (data mask : List Nat) : List Nat :=
  [0x82] ++
    (if data.length ≤ 125 then [0x80 ||| data.length]
     else if data.length ≤ 65535 then (0x80 ||| 126) :: pack16 data.length
     else (0x80 ||| 127) :: pack64 data.length) ++
    mask ++ maskBytes data mask

/-- Lines 99-113 of `test_vless.py`: one inbound frame-header parse at
`offset`.  Returns `none` where the Python loop `break`s (incomplete
header), otherwise `(opcode, header_len, length)`.  Note the mask bit of
the second byte is discarded by `% 128` (`& 0x7F`) and never examined. -/
def parseHeader (data : List Nat) (offset : Nat) : Option (Nat × Nat × Nat) :=
  if data.length < offset + 2 then none
  else if data.getD (offset + 1) 0 % 128 = 126 then
    if data.length < offset + 4 then none
    else some (data.getD offset 0 % 16, 4, beUnpack ((data.drop (offset + 2)).take 2))
  else if data.getD (offset + 1) 0 % 128 = 127 then
    if data.length < offset + 10 then none
    else some (data.getD offset 0 % 16, 10, beUnpack ((data.drop (offset + 2)).take 8))
  else some (data.getD offset 0 % 16, 2, data.getD (offset + 1) 0 % 128)

/-- Lines 96-124 of `test_vless.py`: the inbound frame parse loop, with an
explicit fuel bounding the number of iterations.  Each iteration slices
`payload = all_data[offset+header_len : offset+header_len+length]`, strips
the 2+addon VLESS response header from the first payload of length ≥ 2,
and advances `offset` by `header_len + length`. -/
def parseFramesAux : Nat → List Nat → Nat → Bool → List (List Nat)
  | 0, _, _, _ => []
  | fuel + 1, data, offset, firstFrame =>
    if offset < data.length then
      match parseHeader data offset with
      | none => []
      | some (_opcode, headerLen, len) =>
        let payload := (data.drop (offset + headerLen)).take len
        if firstFrame = true ∧ 2 ≤ payload.length then
          payload.drop (2 + payload.getD 1 0) ::
            parseFramesAux fuel data (offset + headerLen + len) false
        else
          payload :: parseFramesAux fuel data (offset + headerLen + len) firstFrame
    else []

/-- The parse loop of lines 96-124 run to completion: fuel `data.length`
iterations always suffice (`parseFramesAux_irrel` below), since each
iteration advances `offset` by at least two. -/
def parseFrames (data : List Nat) (offset : Nat) (firstFrame : Bool) : List (List Nat) :=
  parseFramesAux data.length data offset firstFrame

/-- Strip the VLESS response header from the first emitted payload of
length ≥ 2, exactly as the `first_frame` flag of lines 117-121 does;
used to state what the loop passes through. -/
def stripFirst : List (List Nat) → List (List Nat)
  | [] => []
  | p :: rest =>
    if 2 ≤ p.length then p.drop (2 + p.getD 1 0) :: rest
    else p :: stripFirst rest

/-- The HTTP header terminator `\r\n\r\n`. -/
def wsTerm : List Nat := [13, 10, 13, 10]

/-- Lines 33-35 of `test_vless.py`: starting from an empty `response`
buffer, while the terminator is not contained in `response`, append the
next `sock.recv(1024)` result to it.
The successive `recv` results are abstracted as `chunks`; the result is
the final `response` buffer together with the chunks not yet received,
which are exactly the bytes later reads (and hence the frame parse loop
over `all_data`) can still see.  `none` models a `recv` that never
produces the terminator. -/
def handshakeLoop (acc : List Nat) (chunks : List (List Nat)) :
    Option (List Nat × List (List Nat)) :=
  if wsTerm <:+: acc then some (acc, chunks)
  else
    match chunks with
    | [] => none
    | c :: rest => handshakeLoop (acc ++ c) rest

/-- Hex digit value, as the Python `uuid.UUID` parser reads canonical hex. -/
def hexVal (c : Char) : Nat :=
  if '0' ≤ c ∧ c ≤ '9' then c.toNat - 48
  else if 'a' ≤ c ∧ c ≤ 'f' then c.toNat - 87
  else c.toNat - 55

/-- Pair up hex digits into bytes. -/
def hexPairs : List Char → List Nat
  | c1 :: c2 :: rest => (16 * hexVal c1 + hexVal c2) :: hexPairs rest
  | _ => []

/-- Line 40 of `test_vless.py`: `uuid.UUID(vless_uuid).bytes`, the 16
bytes obtained by hex-decoding the canonical UUID string without dashes. -/
def uuidBytes (s : String) : List Nat :=
  hexPairs (s.data.filter (fun c => c ≠ '-'))

/-- UTF-8 bytes of an ASCII string, as `encode` on `str` yields them. -/
def strBytes (s : String) : List Nat :=
  s.data.map Char.toNat

/-- Line 12 of `test_vless.py`. -/
def vless_uuid : String := "c373c80c-58e4-4e64-8db5-40096905ec58"

/-- Line 13 of `test_vless.py`. -/
def target_host : String := "httpbin.org"

/-- Line 14 of `test_vless.py`. -/
def target_port : Nat := 80

/-- Lines 39-48 of `test_vless.py`: the VLESS request header — version 0,
16-byte identity, addon length 0, command 1 (TCP), 2-byte big-endian
port, address type 2 (domain), 1-byte domain length, domain bytes. -/
def vlessHeader (identity domain : List Nat) (port : Nat) : List Nat :=
  [0] ++ identity ++ [0] ++ [1] ++ pack16 port ++ [2] ++ [domain.length] ++ domain

/-- Line 45 of `test_vless.py`. -/
def domain_bytes : List Nat := strBytes target_host

/-- The concrete VLESS request header the script builds. -/
def header : List Nat := vlessHeader (uuidBytes vless_uuid) domain_bytes target_port

/-- Line 51 of `test_vless.py`: the tunneled HTTP request. -/
def http_request : List Nat :=
  strBytes "GET /ip HTTP/1.1\r\nHost: httpbin.org\r\nConnection: close\r\n\r\n"

/-- Line 54 of `test_vless.py`: the single outbound message. -/
def payload : List Nat := header ++ http_request

/-! ### Basic facts about the frame parse loop -/

/-- A successful header parse needs at least two buffered bytes,
declares a header of at least two bytes, and the whole header is
buffered. -/
theorem parseHeader_facts {d : List Nat} {o op hl ln : Nat}
    (h : parseHeader d o = some (op, hl, ln)) :
    o + 2 ≤ d.length ∧ 2 ≤ hl ∧ o + hl ≤ d.length := by
  unfold parseHeader at h
  split at h
  · exact absurd h (by simp)
  next h0 =>
    split at h
    · split at h
      · exact absurd h (by simp)
      · obtain ⟨rfl, rfl, rfl⟩ : op = _ ∧ hl = 4 ∧ ln = _ := by
          injection h with h; injection h with h1 h2; injection h2 with h2 h3
          exact ⟨h1.symm, h2.symm, h3.symm⟩
        omega
    · split at h
      · split at h
        · exact absurd h (by simp)
        · obtain ⟨rfl, rfl, rfl⟩ : op = _ ∧ hl = 10 ∧ ln = _ := by
            injection h with h; injection h with h1 h2; injection h2 with h2 h3
            exact ⟨h1.symm, h2.symm, h3.symm⟩
          omega
      · obtain ⟨rfl, rfl, rfl⟩ : op = _ ∧ hl = 2 ∧ ln = _ := by
          injection h with h; injection h with h1 h2; injection h2 with h2 h3
          exact ⟨h1.symm, h2.symm, h3.symm⟩
        omega

/-- One-step unfolding of the fueled loop. -/
theorem parseFramesAux_succ (g : Nat) (d : List Nat) (o : Nat) (ff : Bool) :
    parseFramesAux (g + 1) d o ff =
      if o < d.length then
        match parseHeader d o with
        | none => []
        | some (_op, hl, ln) =>
          let payload := (d.drop (o + hl)).take ln
          if ff = true ∧ 2 ≤ payload.length then
            payload.drop (2 + payload.getD 1 0) :: parseFramesAux g d (o + hl + ln) false
          else
            payload :: parseFramesAux g d (o + hl + ln) ff
      else [] := rfl

/-- When the offset has reached the end of the buffer the loop is over,
whatever the fuel. -/
theorem parseFramesAux_stop (f : Nat) (d : List Nat) (o : Nat) (ff : Bool)
    (h : d.length ≤ o) : parseFramesAux f d o ff = [] := by
  cases f with
  | zero => rfl
  | succ g => rw [parseFramesAux_succ, if_neg (by omega)]

/-- Fuel irrelevance: any fuel of at least `d.length - o` iterations gives
the same result, because every iteration advances the offset by at least
two bytes.  This justifies fuel `d.length` in `parseFrames`. -/
theorem parseFramesAux_irrel :
    ∀ (f₁ f₂ : Nat) (d : List Nat) (o : Nat) (ff : Bool),
      d.length - o ≤ f₁ → d.length - o ≤ f₂ →
      parseFramesAux f₁ d o ff = parseFramesAux f₂ d o ff := by
  intro f₁
  induction f₁ with
  | zero =>
    intro f₂ d o ff h1 h2
    have h : d.length ≤ o := by omega
    rw [parseFramesAux_stop _ _ _ _ h, parseFramesAux_stop _ _ _ _ h]
  | succ g ih =>
    intro f₂ d o ff h1 h2
    by_cases ho : o < d.length
    · obtain ⟨g₂, rfl⟩ : ∃ g₂, f₂ = g₂ + 1 := by
        cases f₂ with
        | zero => omega
        | succ k => exact ⟨k, rfl⟩
      rw [parseFramesAux_succ, parseFramesAux_succ, if_pos ho, if_pos ho]
      cases hh : parseHeader d o with
      | none => rfl
      | some t =>
        obtain ⟨op, hl, ln⟩ := t
        have hf := parseHeader_facts hh
        have hrec1 := ih g₂ d (o + hl + ln) false (by omega) (by omega)
        have hrec2 := ih g₂ d (o + hl + ln) ff (by omega) (by omega)
        simp only [hrec1, hrec2]
    · rw [parseFramesAux_stop _ _ _ _ (by omega), parseFramesAux_stop _ _ _ _ (by omega)]

/-- The loop is over once the offset reaches the end of the buffer. -/
theorem parseFrames_stop {d : List Nat} {o : Nat} (ff : Bool) (h : d.length ≤ o) :
    parseFrames d o ff = [] :=
  parseFramesAux_stop _ _ _ _ h

/-- An incomplete frame header stops the loop without emitting anything. -/
theorem parseFrames_none {d : List Nat} {o : Nat} (ff : Bool)
    (h : parseHeader d o = none) : parseFrames d o ff = [] := by
  by_cases ho : o < d.length
  · unfold parseFrames
    obtain ⟨g, hg⟩ : ∃ g, d.length = g + 1 := ⟨d.length - 1, by omega⟩
    rw [hg, parseFramesAux_succ, if_pos (by omega), h]
  · exact parseFrames_stop ff (by omega)

/-- One-step unfolding of the parse loop on a complete frame header. -/
theorem parseFrames_cons {d : List Nat} {o op hl ln : Nat} (ff : Bool)
    (h : parseHeader d o = some (op, hl, ln)) :
    parseFrames d o ff =
      if ff = true ∧ 2 ≤ ((d.drop (o + hl)).take ln).length then
        ((d.drop (o + hl)).take ln).drop (2 + ((d.drop (o + hl)).take ln).getD 1 0) ::
          parseFrames d (o + hl + ln) false
      else
        ((d.drop (o + hl)).take ln) :: parseFrames d (o + hl + ln) ff := by
  have hf := parseHeader_facts h
  unfold parseFrames
  obtain ⟨g, hg⟩ : ∃ g, d.length = g + 1 := ⟨d.length - 1, by omega⟩
  conv_lhs => rw [hg]
  rw [parseFramesAux_succ, if_pos (by omega), h]
  have h1 := parseFramesAux_irrel g d.length d (o + hl + ln) false (by omega) (by omega)
  have h2 := parseFramesAux_irrel g d.length d (o + hl + ln) ff (by omega) (by omega)
  simp only [h1, h2]

/-! ### Mask and length-field arithmetic -/

theorem getD_eq_of_lt {l : List Nat} {i : Nat} (h : i < l.length) :
    l.getD i 0 = l[i] := by
  rw [List.getD_eq_getElem?_getD, List.getElem?_eq_getElem h]
  rfl

theorem maskBytes_length (data mask : List Nat) :
    (maskBytes data mask).length = data.length := by
  simp [maskBytes]

theorem maskBytes_getElem (data mask : List Nat) (i : Nat)
    (h : i < (maskBytes data mask).length) :
    (maskBytes data mask)[i] = data.getD i 0 ^^^ mask.getD (i % 4) 0 := by
  simp [maskBytes]

theorem maskBytes_getD (data mask : List Nat) (i : Nat) (h : i < data.length) :
    (maskBytes data mask).getD i 0 = data.getD i 0 ^^^ mask.getD (i % 4) 0 := by
  rw [getD_eq_of_lt (by rw [maskBytes_length]; exact h), maskBytes_getElem]

/-- XOR masking is an involution: unmasking with the same 4-byte key
recovers the original bytes. -/
theorem maskBytes_maskBytes (data mask : List Nat) :
    maskBytes (maskBytes data mask) mask = data := by
  apply List.ext_getElem
  · rw [maskBytes_length, maskBytes_length]
  · intro n h1 h2
    rw [maskBytes_getElem, maskBytes_getD data mask n h2, Nat.xor_cancel_right,
      getD_eq_of_lt h2]

theorem beUnpack_pack16 {n : Nat} (h : n ≤ 65535) : beUnpack (pack16 n) = n := by
  simp only [beUnpack, pack16, List.foldl]
  omega

theorem beUnpack_pack64 {n : Nat} (h : n < 2 ^ 64) : beUnpack (pack64 n) = n := by
  simp only [beUnpack, pack64, List.foldl]
  omega

theorem lor_small : ∀ n < 128, 128 ||| n = 128 + n := by decide

/-- The encoder on a short payload (1-byte length field). -/
theorem send_ws_frame_small {data m : List Nat} (h : data.length ≤ 125) :
    send_ws_frame data m =
      0x82 :: (0x80 ||| data.length) :: (m ++ maskBytes data m) := by
  simp [send_ws_frame, h]

/-- The encoder on a mid-size payload (marker 126, 2-byte length field). -/
theorem send_ws_frame_mid {data m : List Nat} (h1 : 125 < data.length)
    (h2 : data.length ≤ 65535) :
    send_ws_frame data m =
      0x82 :: (0x80 ||| 126) :: (data.length / 256 % 256) :: (data.length % 256) ::
        (m ++ maskBytes data m) := by
  simp [send_ws_frame, pack16, Nat.not_le.mpr h1, h2]

/-- The encoder on a large payload (marker 127, 8-byte length field). -/
theorem send_ws_frame_big {data m : List Nat} (h : 65535 < data.length) :
    send_ws_frame data m =
      0x82 :: (0x80 ||| 127) ::
        (data.length / 2 ^ 56 % 256) :: (data.length / 2 ^ 48 % 256) ::
        (data.length / 2 ^ 40 % 256) :: (data.length / 2 ^ 32 % 256) ::
        (data.length / 2 ^ 24 % 256) :: (data.length / 2 ^ 16 % 256) ::
        (data.length / 2 ^ 8 % 256) :: (data.length % 256) ::
        (m ++ maskBytes data m) := by
  simp [send_ws_frame, pack64, Nat.not_le.mpr h, Nat.not_le.mpr (by omega : 125 < data.length)]

/-! ### Claim C2 -/

/-- C2: for any 16-byte identity, domain-form destination of 1-255 bytes
and port, the serialized VLESS request header is, in order: version byte
0x00, the 16 identity bytes, addon-length byte 0x00, command byte 0x01,
the port as 2-byte big-endian, address-type byte 0x02, one byte with the
domain length, then the domain bytes; for ("httpbin.org", 80) the header
is exactly 34 bytes and is prepended to the application payload inside
one masked binary WebSocket frame with a 1-byte length field. -/
theorem C2_theorem (identity domain : List Nat) (port : Nat) (m : List Nat)
    (h1 : identity.length = 16) (h2 : 1 ≤ domain.length) (h3 : domain.length ≤ 255)
    (h4 : port < 65536) (hm : m.length = 4) :
    vlessHeader identity domain port =
      [0] ++ identity ++ [0, 1, port / 256, port % 256, 2, domain.length] ++ domain ∧
    (vlessHeader identity domain port).length = 23 + domain.length ∧
    header = vlessHeader (uuidBytes vless_uuid) domain_bytes target_port ∧
    header.length = 34 ∧
    payload = header ++ http_request ∧ payload.length = 92 ∧
    send_ws_frame payload m = 0x82 :: (0x80 ||| 92) :: (m ++ maskBytes payload m) := by
  refine ⟨?_, ?_, rfl, by decide, rfl, by decide, ?_⟩
  · have hp : port / 256 % 256 = port / 256 := Nat.mod_eq_of_lt (by omega)
    simp [vlessHeader, pack16, hp]
  · simp [vlessHeader, pack16, h1]
    omega
  · have hl : payload.length = 92 := by decide
    rw [send_ws_frame_small (by omega), hl]

/-- Witness for C2 at the concrete identity, destination
and request. -/
theorem C2_witness :
    (uuidBytes vless_uuid).length = 16 ∧ 1 ≤ domain_bytes.length ∧
      domain_bytes.length ≤ 255 ∧ target_port < 65536 ∧
      ([1, 2, 3, 4] : List Nat).length = 4 ∧ header.length = 34 :=
  ⟨by decide, by decide, by decide, by decide, by decide,
    (C2_theorem (uuidBytes vless_uuid) domain_bytes target_port [1, 2, 3, 4]
      (by decide) (by decide) (by decide) (by decide) (by decide)).2.2.2.1⟩

/-! ### Claim C8 -/

/-- C8: for every payload, the encoded outbound frame starts with
`0x80 ||| opcode` (opcode 2, FIN=1), then `0x80` (the always-set mask
bit) ORed with the length class — the length itself when at most 125,
marker 126 plus a 2-byte big-endian length for 126-65535, marker 127
plus an 8-byte big-endian length above that — then the 4-byte mask key,
then the payload with byte `i` XORed with `mask[i % 4]`. -/
theorem C8_theorem (data m : List Nat) (hm : m.length = 4)
    (hn : data.length < 2 ^ 64) :
    (send_ws_frame data m).getD 0 0 = 0x80 ||| 0x02 ∧
    (data.length ≤ 125 →
      send_ws_frame data m =
        (0x80 ||| 0x02) :: (0x80 ||| data.length) :: (m ++ maskBytes data m)) ∧
    (126 ≤ data.length → data.length ≤ 65535 →
      (send_ws_frame data m).getD 1 0 = 0x80 ||| 126 ∧
      beUnpack (((send_ws_frame data m).drop 2).take 2) = data.length ∧
      (send_ws_frame data m).drop 4 = m ++ maskBytes data m) ∧
    (65536 ≤ data.length →
      (send_ws_frame data m).getD 1 0 = 0x80 ||| 127 ∧
      beUnpack (((send_ws_frame data m).drop 2).take 8) = data.length ∧
      (send_ws_frame data m).drop 10 = m ++ maskBytes data m) ∧
    (maskBytes data m).length = data.length ∧
    (∀ i, i < data.length →
      (maskBytes data m).getD i 0 = data.getD i 0 ^^^ m.getD (i % 4) 0) := by
  refine ⟨?_, ?_, ?_, ?_, maskBytes_length data m,
    fun i hi => maskBytes_getD data m i hi⟩
  · by_cases h1 : data.length ≤ 125
    · rw [send_ws_frame_small h1]; rfl
    · by_cases h2 : data.length ≤ 65535
      · rw [send_ws_frame_mid (by omega) h2]; rfl
      · rw [send_ws_frame_big (by omega)]; rfl
  · intro h1
    rw [send_ws_frame_small h1]
    rfl
  · intro h1 h2
    rw [send_ws_frame_mid (by omega) h2]
    refine ⟨rfl, ?_, rfl⟩
    exact beUnpack_pack16 h2
  · intro h1
    rw [send_ws_frame_big (by omega)]
    refine ⟨rfl, ?_, rfl⟩
    exact beUnpack_pack64 hn

/-- Witness for C8 on a one-byte payload and a fixed mask key. -/
theorem C8_witness :
    ([5, 6, 7, 8] : List Nat).length = 4 ∧ ([9] : List Nat).length < 2 ^ 64 ∧
    (send_ws_frame [9] [5, 6, 7, 8]).getD 0 0 = 0x80 ||| 0x02 :=
  ⟨by decide, by decide, (C8_theorem [9] [5, 6, 7, 8] (by decide) (by decide)).1⟩

/-! ### Claim C1 -/

/-- C1 fails as stated: the inbound parse loop never accounts for the
4-byte mask key of a masked frame.  On payload `[65]` with mask key
`[0,0,0,0]` the encoder emits 7 bytes, the parser reads declared length
1 and header length 2, its payload slice is the first mask-key byte `[0]`
— which reversing the mask does not turn back into `[65]` — and it
advances 3 bytes, not the 7 the encoder emitted. -/
theorem C1_counterexample :
    parseHeader (send_ws_frame [65] [0, 0, 0, 0]) 0 = some (2, 2, 1) ∧
    maskBytes (((send_ws_frame [65] [0, 0, 0, 0]).drop 2).take 1) [0, 0, 0, 0] ≠ [65] ∧
    2 + 1 ≠ (send_ws_frame [65] [0, 0, 0, 0]).length := by
  decide

/-- C1 (amended): for every payload of up to 70000 bytes and every 4-byte
mask key, the parser applied to the encoder output reads opcode 2 and
the declared length correctly in all three length classes, but its slice
starts at the mask key: the bytes 4 past the parsed header are exactly
the masked payload, and reversing the mask on those reproduces the
payload; the encoder emits `headerLen + 4 + N` bytes while the parser
advances only `headerLen + N`. -/
theorem C1_theorem (p m : List Nat) (hm : m.length = 4) (hp : p.length ≤ 70000) :
    parseHeader (send_ws_frame p m) 0 =
      some (2, (if p.length ≤ 125 then 2 else if p.length ≤ 65535 then 4 else 10),
        p.length) ∧
    (send_ws_frame p m).drop
        ((if p.length ≤ 125 then 2 else if p.length ≤ 65535 then 4 else 10) + 4) =
      maskBytes p m ∧
    maskBytes (maskBytes p m) m = p ∧
    (send_ws_frame p m).length =
      (if p.length ≤ 125 then 2 else if p.length ≤ 65535 then 4 else 10) + 4 +
        p.length := by
  by_cases h1 : p.length ≤ 125
  · rw [send_ws_frame_small h1]
    simp only [if_pos h1]
    have hlor : (0x80 ||| p.length : Nat) = 128 + p.length :=
      lor_small p.length (by omega)
    refine ⟨?_, ?_, maskBytes_maskBytes p m, ?_⟩
    · simp [parseHeader, hlor, Nat.add_mod_left,
        Nat.mod_eq_of_lt (show p.length < 128 by omega),
        show p.length ≠ 126 by omega, show p.length ≠ 127 by omega]
    · show (m ++ maskBytes p m).drop 4 = maskBytes p m
      exact List.drop_left' hm
    · simp [maskBytes_length, hm]
      omega
  · by_cases h2 : p.length ≤ 65535
    · rw [send_ws_frame_mid (by omega) h2]
      simp only [if_neg h1, if_pos h2]
      refine ⟨?_, ?_, maskBytes_maskBytes p m, ?_⟩
      · simp [parseHeader, show ((0x80 ||| 126 : Nat)) = 254 by decide]
        exact beUnpack_pack16 h2
      · show (m ++ maskBytes p m).drop 4 = maskBytes p m
        exact List.drop_left' hm
      · simp [maskBytes_length, hm]
        omega
    · rw [send_ws_frame_big (by omega)]
      simp only [if_neg h1, if_neg h2]
      refine ⟨?_, ?_, maskBytes_maskBytes p m, ?_⟩
      · simp [parseHeader, show ((0x80 ||| 127 : Nat)) = 255 by decide]
        exact beUnpack_pack64 (by omega)
      · show (m ++ maskBytes p m).drop 4 = maskBytes p m
        exact List.drop_left' hm
      · simp [maskBytes_length, hm]
        omega

/-- Witness for the amended C1 on a short payload. -/
theorem C1_witness :
    ([1, 2, 3, 4] : List Nat).length = 4 ∧ ([7] : List Nat).length ≤ 70000 ∧
    parseHeader (send_ws_frame [7] [1, 2, 3, 4]) 0 = some (2, 2, 1) :=
  ⟨by decide, by decide, (C1_theorem [7] [1, 2, 3, 4] (by decide) (by decide)).1⟩

/-! ### Claim C3 -/

/-- C3 fails as stated: the strip is not applied to the first non-empty
payload.  On the two inbound frames `[0x02,1,65]` (payload `[65]`) and
`[0x02,3,0,0,66]` (payload `[0,0,66]`), the first non-empty payload
`[65]` is forwarded verbatim and the strip lands on the second frame,
whose bytes `[0,0,66]` the claim says are passed through unchanged. -/
theorem C3_counterexample :
    parseFrames [2, 1, 65, 2, 3, 0, 0, 66] 0 true = [[65], [66]] ∧
    ([66] : List Nat) ≠ [0, 0, 66] := by
  decide

/-- C3 (amended): per session at most one VLESS response-header strip
occurs, and it is applied to the first decoded payload of length at
least 2; payloads of length 0 or 1 before it, the bytes of the stripped
payload past `2 + addonLength`, and all bytes of every later frame are
passed through unchanged.  Formally the loop started with the
`first_frame` flag set equals `stripFirst` of the loop run with the flag
clear (which forwards every raw payload verbatim). -/
theorem C3_theorem (d : List Nat) (o : Nat) :
    parseFrames d o true = stripFirst (parseFrames d o false) := by
  by_cases ho : o < d.length
  · cases hh : parseHeader d o with
    | none => rw [parseFrames_none true hh, parseFrames_none false hh]; rfl
    | some t =>
      obtain ⟨op, hl, ln⟩ := t
      rw [parseFrames_cons true hh, parseFrames_cons false hh,
        if_neg (show ¬(false = true ∧ 2 ≤ ((d.drop (o + hl)).take ln).length) from
          fun hc => Bool.false_ne_true hc.1)]
      by_cases hp : 2 ≤ ((d.drop (o + hl)).take ln).length
      · rw [if_pos ⟨rfl, hp⟩]
        simp only [stripFirst, if_pos hp]
      · rw [if_neg (fun hc => hp hc.2)]
        simp only [stripFirst, if_neg (show ¬2 ≤ ((d.drop (o + hl)).take ln).length from hp)]
        exact congrArg _ (C3_theorem d (o + hl + ln))
  · rw [parseFrames_stop true (by omega), parseFrames_stop false (by omega)]
    rfl
termination_by d.length - o
decreasing_by
  have := parseHeader_facts hh
  omega

/-! ### Claim C4 -/

/-- C4 fails as stated: a first payload shorter than 2 bytes is not
rejected as malformed — it is forwarded verbatim and the strip is
deferred.  On frames `[0x02,1,7]` (payload `[7]`) and `[0x02,2,0,5]`
(payload `[0,5]`), the 1-byte first payload `[7]` is emitted unchanged
and the strip is applied to the second payload instead (addon length 5,
so everything is dropped). -/
theorem C4_counterexample :
    parseFrames [2, 1, 7, 2, 2, 0, 5] 0 true = [[7], []] := by
  decide

/-- C4 (amended): the strip, applied to the first decoded payload of
length at least 2, reads the addon length from byte 1 and emits the
slice from offset `2 + addonLength`, clearing the first-frame flag; a
payload shorter than 2 bytes is forwarded verbatim with the flag (and
hence the pending strip) deferred to later frames.  No failure occurs. -/
theorem C4_theorem (d : List Nat) (o op hl ln : Nat)
    (hh : parseHeader d o = some (op, hl, ln)) :
    (2 ≤ ((d.drop (o + hl)).take ln).length →
      parseFrames d o true =
        ((d.drop (o + hl)).take ln).drop (2 + ((d.drop (o + hl)).take ln).getD 1 0) ::
          parseFrames d (o + hl + ln) false) ∧
    (((d.drop (o + hl)).take ln).length < 2 →
      parseFrames d o true =
        ((d.drop (o + hl)).take ln) :: parseFrames d (o + hl + ln) true) := by
  constructor
  · intro hp
    rw [parseFrames_cons true hh, if_pos ⟨rfl, hp⟩]
  · intro hp
    rw [parseFrames_cons true hh, if_neg (by omega)]

/-- Witness for the amended C4: a first frame with payload `[0,9]`
(version 0, addon length 9) is stripped to the empty chunk. -/
theorem C4_witness :
    parseHeader [2, 2, 0, 9] 0 = some (2, 2, 2) ∧
    parseFrames [2, 2, 0, 9] 0 true =
      ((([2, 2, 0, 9] : List Nat).drop (0 + 2)).take 2).drop
          (2 + ((([2, 2, 0, 9] : List Nat).drop (0 + 2)).take 2).getD 1 0) ::
        parseFrames [2, 2, 0, 9] (0 + 2 + 2) false :=
  ⟨by decide, (C4_theorem [2, 2, 0, 9] 0 2 2 2 (by decide)).1 (by decide)⟩

/-! ### Claim C6 -/

/-- C6 fails as stated: on the buffer `[0x02, 5, 65]` — a complete
header declaring a 5-byte payload with only one byte present — the loop
does not signal for more data; it emits the truncated 1-byte payload
`[65]`. -/
theorem C6_counterexample :
    parseFrames [2, 5, 65] 0 true = [[65]] ∧ ([65] : List Nat).length < 5 := by
  decide

/-- C6 (amended): only an incomplete frame *header* stops the loop with
nothing emitted (`parseFrames_none`); when the header is complete but
the buffer holds fewer payload bytes than declared, the loop emits the
truncated payload that is present — strictly shorter than the declared
length — and terminates. -/
theorem C6_theorem (d : List Nat) (o op hl ln : Nat)
    (hh : parseHeader d o = some (op, hl, ln)) (hlt : d.length < o + hl + ln) :
    parseFrames d o false = [(d.drop (o + hl)).take ln] ∧
    ((d.drop (o + hl)).take ln).length < ln := by
  have hf := parseHeader_facts hh
  constructor
  · rw [parseFrames_cons false hh,
      if_neg (show ¬(false = true ∧ 2 ≤ ((d.drop (o + hl)).take ln).length) from
        fun hc => Bool.false_ne_true hc.1),
      parseFrames_stop false (by omega)]
  · simp only [List.length_take, List.length_drop]
    omega

/-- Witness for the amended C6 on the buffer `[0x02, 5, 65]`. -/
theorem C6_witness :
    parseHeader [2, 5, 65] 0 = some (2, 2, 5) ∧ ([2, 5, 65] : List Nat).length < 0 + 2 + 5 ∧
    (parseFrames [2, 5, 65] 0 false = [(([2, 5, 65] : List Nat).drop (0 + 2)).take 5] ∧
      ((([2, 5, 65] : List Nat).drop (0 + 2)).take 5).length < 5) :=
  ⟨by decide, by decide, C6_theorem [2, 5, 65] 0 2 2 5 (by decide) (by decide)⟩

/-! ### Claim C10 -/

/-- Helper for C10: each loop iteration advances the offset by at least
two, so the number of emitted frames is bounded by half the remaining
buffer. -/
theorem parseFrames_length_bound (d : List Nat) (o : Nat) (ff : Bool) :
    2 * (parseFrames d o ff).length ≤ d.length - o + 1 := by
  by_cases ho : o < d.length
  · cases hh : parseHeader d o with
    | none => rw [parseFrames_none ff hh]; simp
    | some t =>
      obtain ⟨op, hl, ln⟩ := t
      have hf := parseHeader_facts hh
      have ih1 := parseFrames_length_bound d (o + hl + ln) false
      have ih2 := parseFrames_length_bound d (o + hl + ln) ff
      rw [parseFrames_cons ff hh]
      by_cases hc : ff = true ∧ 2 ≤ ((d.drop (o + hl)).take ln).length
      · rw [if_pos hc]
        simp only [List.length_cons]
        omega
      · rw [if_neg hc]
        simp only [List.length_cons]
        omega
  · rw [parseFrames_stop ff (by omega)]
    simp
termination_by d.length - o
decreasing_by
  · have := parseHeader_facts hh
    omega
  · have := parseHeader_facts hh
    omega

/-- C10: the inbound frame-parsing loop terminates on every finite
buffer: a complete frame header always advances the read offset by
`header_len + length ≥ 2`, an incomplete one stops the loop, and the
number of emitted payloads is bounded by half the buffer length. -/
theorem C10_theorem (d : List Nat) (o : Nat) (ff : Bool) (op hl ln : Nat)
    (hh : parseHeader d o = some (op, hl, ln)) :
    2 ≤ hl + ln ∧ 2 * (parseFrames d o ff).length ≤ d.length - o + 1 := by
  have hf := parseHeader_facts hh
  exact ⟨by omega, parseFrames_length_bound d o ff⟩

/-- Witness for C10 on a one-frame buffer. -/
theorem C10_witness :
    parseHeader [2, 1, 65] 0 = some (2, 2, 1) ∧
    (2 ≤ 2 + 1 ∧ 2 * (parseFrames [2, 1, 65] 0 false).length ≤ ([2, 1, 65] : List Nat).length - 0 + 1) :=
  ⟨by decide, C10_theorem [2, 1, 65] 0 false 2 2 1 (by decide)⟩

/-! ### Agreement lemmas: the loop reads nothing before the current offset -/

theorem drop_take_agree {d₁ d₂ : List Nat} {o : Nat}
    (hL : d₁.length = d₂.length)
    (hag : ∀ i, o ≤ i → d₁.getD i 0 = d₂.getD i 0)
    {j : Nat} (hj : o ≤ j) (k : Nat) :
    (d₁.drop j).take k = (d₂.drop j).take k := by
  apply List.ext_getElem?
  intro n
  rw [List.getElem?_take, List.getElem?_take, List.getElem?_drop, List.getElem?_drop]
  by_cases hn : n < k
  · rw [if_pos hn, if_pos hn]
    by_cases hb : j + n < d₁.length
    · rw [List.getElem?_eq_getElem hb,
        List.getElem?_eq_getElem (show j + n < d₂.length by omega)]
      have h := hag (j + n) (by omega)
      rw [getD_eq_of_lt hb, getD_eq_of_lt (show j + n < d₂.length by omega)] at h
      rw [h]
    · rw [List.getElem?_eq_none (by omega), List.getElem?_eq_none (by omega)]
  · rw [if_neg hn, if_neg hn]

theorem parseHeader_agree {d₁ d₂ : List Nat} (o : Nat)
    (hL : d₁.length = d₂.length)
    (hag : ∀ i, o ≤ i → d₁.getD i 0 = d₂.getD i 0) :
    parseHeader d₁ o = parseHeader d₂ o := by
  unfold parseHeader
  rw [hL, hag o (Nat.le_refl o), hag (o + 1) (by omega),
    drop_take_agree hL hag (show o ≤ o + 2 by omega) 2,
    drop_take_agree hL hag (show o ≤ o + 2 by omega) 8]

/-- Two buffers of equal length agreeing from `o` on parse identically
from `o`: the loop never looks back before its offset. -/
theorem parseFrames_agree (d₁ d₂ : List Nat) (o : Nat) (ff : Bool)
    (hL : d₁.length = d₂.length)
    (hag : ∀ i, o ≤ i → d₁.getD i 0 = d₂.getD i 0) :
    parseFrames d₁ o ff = parseFrames d₂ o ff := by
  by_cases ho : o < d₁.length
  · have hH := parseHeader_agree o hL hag
    cases hh : parseHeader d₁ o with
    | none => rw [parseFrames_none ff hh, parseFrames_none ff (hH.symm.trans hh)]
    | some t =>
      obtain ⟨op, hl, ln⟩ := t
      have hh₂ : parseHeader d₂ o = some (op, hl, ln) := hH.symm.trans hh
      have hf := parseHeader_facts hh
      have hp := drop_take_agree hL hag (show o ≤ o + hl by omega) ln
      rw [parseFrames_cons ff hh, parseFrames_cons ff hh₂, hp]
      have hag2 : ∀ i, o + hl + ln ≤ i → d₁.getD i 0 = d₂.getD i 0 :=
        fun i hi => hag i (by omega)
      simp only [parseFrames_agree d₁ d₂ (o + hl + ln) false hL hag2,
        parseFrames_agree d₁ d₂ (o + hl + ln) ff hL hag2]
  · rw [parseFrames_stop ff (by omega), parseFrames_stop ff (show d₂.length ≤ o by omega)]
termination_by d₁.length - o
decreasing_by
  · have := parseHeader_facts hh
    omega
  · have := parseHeader_facts hh
    omega

/-- The header parse at offset 0 of a two-byte-or-longer buffer, in
closed form. -/
theorem parseHeader_zero_shape (x y : Nat) (t : List Nat) :
    parseHeader (x :: y :: t) 0 =
      if y % 128 = 126 then
        (if (x :: y :: t).length < 4 then none
         else some (x % 16, 4, beUnpack (t.take 2)))
      else if y % 128 = 127 then
        (if (x :: y :: t).length < 10 then none
         else some (x % 16, 10, beUnpack (t.take 8)))
      else some (x % 16, 2, y % 128) := by
  simp [parseHeader]

theorem drop_cons_cons {x y : Nat} {t : List Nat} {j : Nat} (hj : 2 ≤ j) :
    (x :: y :: t).drop j = t.drop (j - 2) := by
  match j, hj with
  | k + 2, _ => simp [List.drop_succ_cons]

/-! ### Claim C5 -/

/-- C5 fails as stated: an inbound frame whose second byte `0x81` has
the mask bit set is not rejected — `& 0x7F` silently discards the bit,
the declared length is read as 1, and the byte `[65]` is interpreted as
payload. -/
theorem C5_counterexample :
    Nat.testBit 129 7 = true ∧ parseFrames [2, 129, 65] 0 true = [[65]] := by
  decide

/-- C5 (amended): the parse loop masks the mask bit off
(`length = byte & 0x7F`) and never treats it as a protocol error: a
buffer whose first frame carries the mask bit parses to exactly the
same payload sequence as the same buffer with the bit clear. -/
theorem C5_theorem (a b : Nat) (rest : List Nat) (ff : Bool) (hb : b < 128) :
    parseFrames (a :: (b + 128) :: rest) 0 ff = parseFrames (a :: b :: rest) 0 ff := by
  have hL : (a :: (b + 128) :: rest).length = (a :: b :: rest).length := by simp
  have hag : ∀ i, 2 ≤ i →
      (a :: (b + 128) :: rest).getD i 0 = (a :: b :: rest).getD i 0 := by
    intro i hi
    match i, hi with
    | k + 2, _ => simp [List.getD_cons_succ]
  have hH : parseHeader (a :: (b + 128) :: rest) 0 = parseHeader (a :: b :: rest) 0 := by
    rw [parseHeader_zero_shape, parseHeader_zero_shape, Nat.add_mod_right,
      Nat.mod_eq_of_lt hb]
    simp
  cases hh : parseHeader (a :: (b + 128) :: rest) 0 with
  | none => rw [parseFrames_none ff hh, parseFrames_none ff (hH.symm.trans hh)]
  | some t =>
    obtain ⟨op, hl, ln⟩ := t
    have hh₂ : parseHeader (a :: b :: rest) 0 = some (op, hl, ln) := hH.symm.trans hh
    have hf := parseHeader_facts hh
    rw [parseFrames_cons ff hh, parseFrames_cons ff hh₂,
      drop_cons_cons (show 2 ≤ 0 + hl by omega),
      drop_cons_cons (show 2 ≤ 0 + hl by omega)]
    have hag2 : ∀ i, 0 + hl + ln ≤ i →
        (a :: (b + 128) :: rest).getD i 0 = (a :: b :: rest).getD i 0 :=
      fun i hi => hag i (by omega)
    simp only [parseFrames_agree _ _ (0 + hl + ln) false hL hag2,
      parseFrames_agree _ _ (0 + hl + ln) ff hL hag2]

/-- Witness for the amended C5: second byte `0x83` versus `0x03`. -/
theorem C5_witness :
    (3 : Nat) < 128 ∧
    parseFrames [2, 3 + 128, 9, 9, 9] 0 false = parseFrames [2, 3, 9, 9, 9] 0 false :=
  ⟨by decide, C5_theorem 2 3 [9, 9, 9] false (by decide)⟩

/-! ### Claim C9 -/

/-- Helper for C9: two buffers differing only in the first byte, whose
headers parse with the same header and payload lengths, parse to the
same payload sequence. -/
theorem parseFrames_fstByte (a a' y : Nat) (t : List Nat) (ff : Bool)
    (op op' hl ln : Nat)
    (e₁ : parseHeader (a :: y :: t) 0 = some (op, hl, ln))
    (e₂ : parseHeader (a' :: y :: t) 0 = some (op', hl, ln)) :
    parseFrames (a :: y :: t) 0 ff = parseFrames (a' :: y :: t) 0 ff := by
  have hf := parseHeader_facts e₁
  have hL : (a :: y :: t).length = (a' :: y :: t).length := by simp
  have hag : ∀ i, 0 + hl + ln ≤ i →
      (a :: y :: t).getD i 0 = (a' :: y :: t).getD i 0 := by
    intro i hi
    match i, (show 1 ≤ i by omega) with
    | k + 1, _ => simp [List.getD_cons_succ]
  rw [parseFrames_cons ff e₁, parseFrames_cons ff e₂,
    drop_cons_cons (show 2 ≤ 0 + hl by omega),
    drop_cons_cons (show 2 ≤ 0 + hl by omega)]
  simp only [parseFrames_agree _ _ (0 + hl + ln) false hL hag,
    parseFrames_agree _ _ (0 + hl + ln) ff hL hag]

/-- C9 fails as stated: the loop extracts the opcode but never branches
on it.  A Close frame `[0x88, 1, 65]` (opcode 8) does not end the
session — its payload `[65]` and the following frame's payload `[66]`
are both forwarded. -/
theorem C9_counterexample :
    136 % 16 = 8 ∧ parseFrames [136, 1, 65, 130, 1, 66] 0 true = [[65], [66]] := by
  decide

/-- C9 (amended): the inbound loop's output is entirely independent of
the first byte — and hence of the opcode, Close included: frames with a
Close opcode are handled like any other, their payload emitted and
parsing continued.  The receive loop ends only on a zero-byte read, a
timeout, or buffer exhaustion. -/
theorem C9_theorem (a a' : Nat) (rest : List Nat) (ff : Bool) :
    parseFrames (a :: rest) 0 ff = parseFrames (a' :: rest) 0 ff := by
  cases rest with
  | nil =>
    rw [parseFrames_none ff (by simp [parseHeader]),
      parseFrames_none ff (by simp [parseHeader])]
  | cons y t =>
    by_cases h126 : y % 128 = 126
    · by_cases hlen : t.length < 2
      · have hc : (a :: y :: t).length < 4 := by simp; omega
        have hc' : (a' :: y :: t).length < 4 := by simp; omega
        rw [parseFrames_none ff (by rw [parseHeader_zero_shape, if_pos h126, if_pos hc]),
          parseFrames_none ff (by rw [parseHeader_zero_shape, if_pos h126, if_pos hc'])]
      · have hc : ¬(a :: y :: t).length < 4 := by simp; omega
        have hc' : ¬(a' :: y :: t).length < 4 := by simp; omega
        exact parseFrames_fstByte a a' y t ff _ _ 4 _
          (by rw [parseHeader_zero_shape, if_pos h126, if_neg hc])
          (by rw [parseHeader_zero_shape, if_pos h126, if_neg hc'])
    · by_cases h127 : y % 128 = 127
      · by_cases hlen : t.length < 8
        · have hc : (a :: y :: t).length < 10 := by simp; omega
          have hc' : (a' :: y :: t).length < 10 := by simp; omega
          rw [parseFrames_none ff
              (by rw [parseHeader_zero_shape, if_neg h126, if_pos h127, if_pos hc]),
            parseFrames_none ff
              (by rw [parseHeader_zero_shape, if_neg h126, if_pos h127, if_pos hc'])]
        · have hc : ¬(a :: y :: t).length < 10 := by simp; omega
          have hc' : ¬(a' :: y :: t).length < 10 := by simp; omega
          exact parseFrames_fstByte a a' y t ff _ _ 10 _
            (by rw [parseHeader_zero_shape, if_neg h126, if_pos h127, if_neg hc])
            (by rw [parseHeader_zero_shape, if_neg h126, if_pos h127, if_neg hc'])
      · exact parseFrames_fstByte a a' y t ff _ _ 2 _
          (by rw [parseHeader_zero_shape, if_neg h126, if_neg h127])
          (by rw [parseHeader_zero_shape, if_neg h126, if_neg h127])

/-! ### Claim C7 -/

/-- C7 fails as stated: bytes past the `\r\n\r\n` terminator that arrive
in the same `recv` chunk stay in the handshake buffer `response`, which
is never consulted again — they are not handed to the frame decoder.
With the stream `[88] ++ \r\n\r\n ++ [69]` delivered as one chunk, the
loop consumes everything and the frame decoder receives the remaining
chunks `[]`, not the extra byte `[69]`. -/
theorem C7_counterexample :
    handshakeLoop [] [[88, 13, 10, 13, 10, 69]] =
      some ([88, 13, 10, 13, 10, 69], []) ∧
    List.flatten ([] : List (List Nat)) ≠ [69] := by
  decide

/-- C7 (amended): the handshake loop consumes whole `recv` chunks until
the accumulated buffer contains `\r\n\r\n`, and the frame decoder sees
exactly the chunks not yet received: when the terminator arrives
exactly at the end of a chunk, the later chunks — and only they — reach
the decoder unmodified; in general no byte is lost from
`response ++ remaining`, but bytes past the terminator inside an
already-consumed chunk stay in the handshake buffer. -/
theorem C7_theorem :
    (∀ (hb : List Nat) (rest : List (List Nat)),
      handshakeLoop [] ((hb ++ wsTerm) :: rest) = some (hb ++ wsTerm, rest)) ∧
    (∀ (acc : List Nat) (chunks : List (List Nat)) (resp : List Nat)
        (rest : List (List Nat)),
      handshakeLoop acc chunks = some (resp, rest) →
      resp ++ rest.flatten = acc ++ chunks.flatten ∧ wsTerm <:+: resp) := by
  constructor
  · intro hb rest
    unfold handshakeLoop
    rw [if_neg (show ¬wsTerm <:+: ([] : List Nat) by decide)]
    show handshakeLoop ([] ++ (hb ++ wsTerm)) rest = some (hb ++ wsTerm, rest)
    rw [List.nil_append]
    unfold handshakeLoop
    rw [if_pos ((List.suffix_append hb wsTerm).isInfix)]
  · intro acc chunks
    induction chunks generalizing acc with
    | nil =>
      intro resp rest h
      unfold handshakeLoop at h
      split at h
      next hterm =>
        injection h with h
        injection h with h1 h2
        subst h1; subst h2
        exact ⟨rfl, hterm⟩
      · exact absurd h (by simp)
    | cons c cs ih =>
      intro resp rest h
      unfold handshakeLoop at h
      split at h
      next hterm =>
        injection h with h
        injection h with h1 h2
        subst h1; subst h2
        exact ⟨rfl, hterm⟩
      next hterm =>
        obtain ⟨h1, h2⟩ := ih (acc ++ c) resp rest h
        refine ⟨?_, h2⟩
        rw [h1, List.flatten_cons, List.append_assoc]

/-- Witness for the amended C7: header byte `[88]`, terminator at the
chunk boundary, no further chunks. -/
theorem C7_witness :
    handshakeLoop [] (([88] ++ wsTerm) :: []) = some ([88] ++ wsTerm, []) ∧
    ([88] ++ wsTerm) ++ List.flatten ([] : List (List Nat)) =
      [] ++ List.flatten [[88] ++ wsTerm] ∧
    wsTerm <:+: [88] ++ wsTerm := by
  refine ⟨C7_theorem.1 [88] [], ?_, ?_⟩
  · exact (C7_theorem.2 [] [[88] ++ wsTerm] ([88] ++ wsTerm) [] (C7_theorem.1 [88] [])).1
  · exact (C7_theorem.2 [] [[88] ++ wsTerm] ([88] ++ wsTerm) [] (C7_theorem.1 [88] [])).2

end CFspider
